import Mathlib

/-!
Shallow embedding of the quick-find selection core
(src/src-tauri/src/entry.rs and src/src-tauri/src/menu.rs).

Strings are modelled as `List Char`. Rust's `char::MAX` and `usize::MAX`
sentinels (used by `Entry::new` for "no selection yet") are modelled as
explicit constants. Rust's `str::char_indices` yields byte offsets, which
is modelled faithfully via `Char.utf8Size`. The `regex::Regex` value is
only ever applied to one-character strings (`is_match(&c.to_string())`),
so a regex is embedded as its single-character match predicate
`Char → Bool`; the default pattern `[A-z0-9]` is given concretely below.
The minimize-keys retry loop of `Menu::find_entry_selections` is a Rust
`loop` with no bound; it is embedded with explicit fuel, `LoopRes.fuelOut`
meaning the loop has not exited within the given number of passes.
-/

/-- Rust `char::MAX` (U+10FFFF), the initial `selection_letter` sentinel. -/
def charMAX : Char := Char.ofNat 0x10FFFF

/-- Rust `usize::MAX` on a 64-bit target, the initial `selection_index`. -/
def usizeMAX : Nat := 2 ^ 64 - 1

/-- Models Rust `c.to_lowercase().next().unwrap()`: the first character of
the lowercase mapping of `c`. `Char.toLower` agrees with Rust on ASCII,
which covers every character the claims mention; multi-character and
non-ASCII foldings are outside the scope of this development. -/
def toLowercaseFirst (c : Char) : Char := c.toLower

/-- The single-character match predicate of the default allowed_regex
`"[A-z0-9]"` (config.rs `default_allowed_regex`): code points between
`'A'` and `'z'` inclusive, or a decimal digit. -/
def defaultAllowedRegex (c : Char) : Bool :=
  ('A' ≤ c && c ≤ 'z') || ('0' ≤ c && c ≤ '9')

/-- Models Rust `str::char_indices` starting at byte offset `b`: pairs of
the byte offset and the character. -/
def charIndicesFrom (b : Nat) : List Char → List (Nat × Char)
  | [] => []
  | c :: cs => (b, c) :: charIndicesFrom (b + c.utf8Size) cs

/-- Models Rust `str::char_indices`. -/
def charIndices (s : List Char) : List (Nat × Char) := charIndicesFrom 0 s

/-- entry.rs `ActionType`. -/
inductive ActionType where
  | Open : ActionType
  | Command : List Char → ActionType
deriving DecidableEq

/-- entry.rs `Entry`. `string` is the display label that is scanned for a
selection letter; `full_string` is the payload handed to the action. -/
structure Entry where
  string : List Char
  full_string : List Char
  selection_letter : Char
  selection_index : Nat
  pos : Nat
  action : ActionType
deriving DecidableEq

/-- entry.rs `Entry::new`. -/
def Entry.new (string full_string : List Char) (action : ActionType) : Entry :=
  { string := string
    full_string := full_string
    selection_letter := charMAX
    selection_index := usizeMAX
    pos := 0
    action := action }

/-- The scan loop of entry.rs `Entry::get_selection` (lines 75–103): walk
the `(byte index, char)` pairs, `continue` on a space, on an allowed-chars
miss (one side lowercased when `match_case` is false), on a regex miss,
and on a disallowed hit (label char lowercased when `match_selection_case`
is false); return the first pair that passes every check. -/
def selectionScan (allowed_chars : List Char) (allowed_regex : Option (Char → Bool))
    (disallowed_chars : List Char) (match_case match_selection_case : Bool) :
    List (Nat × Char) → Option (Nat × Char)
  | [] => none
  | (i, c) :: rest =>
    if c = ' ' then
      selectionScan allowed_chars allowed_regex disallowed_chars
        match_case match_selection_case rest
    else if !allowed_chars.isEmpty &&
        (if match_case then !(allowed_chars.contains c)
         else !(allowed_chars.contains (toLowercaseFirst c))) then
      selectionScan allowed_chars allowed_regex disallowed_chars
        match_case match_selection_case rest
    else if (match allowed_regex with
             | some r => !(r c)
             | none => false) then
      selectionScan allowed_chars allowed_regex disallowed_chars
        match_case match_selection_case rest
    else if (if match_selection_case then disallowed_chars.contains c
             else disallowed_chars.contains (toLowercaseFirst c)) then
      selectionScan allowed_chars allowed_regex disallowed_chars
        match_case match_selection_case rest
    else
      some (i, c)

/-- entry.rs `Entry::get_selection`: scan `string` from the `pos`-th
character on; on success store the found byte index and letter and return
`true`, otherwise leave the entry unchanged and return `false`. -/
def get_selection (e : Entry) (allowed_chars : List Char)
    (allowed_regex : Option (Char → Bool)) (disallowed_chars : List Char)
    (match_case match_selection_case : Bool) : Entry × Bool :=
  match selectionScan allowed_chars allowed_regex disallowed_chars
      match_case match_selection_case ((charIndices e.string).drop e.pos) with
  | some (i, c) =>
    ({ e with selection_index := i, selection_letter := c }, true)
  | none => (e, false)

/-- menu.rs `Menu`, restricted to the fields the selection core reads.
`entries` are the static entries from the config; `current_entries` is the
live set. The external pieces (hotkey, directory path, css, ignored
files) do not enter the algorithms below. -/
structure Menu where
  current_entries : List Entry
  entries : List Entry
  allowed_chars : List Char
  match_allowed_chars_case : Bool
  allowed_regex : Option (Char → Bool)
  match_selection_case : Bool
  minimize_keys : Bool

/-- The per-entry body of the minimize-keys pass (menu.rs lines 130–162):
try `get_selection` with `disallowed = unproductive ++ used`; on success
push the (selection-case-folded) letter onto `used`; on failure retry with
`disallowed = unproductive` alone. Returns the updated entry and `used`. -/
def assignEntry (m : Menu) (unproductive used : List Char) (e : Entry) :
    Entry × List Char :=
  let disallowed_chars := unproductive ++ used
  let r := get_selection e m.allowed_chars m.allowed_regex disallowed_chars
    m.match_allowed_chars_case m.match_selection_case
  if r.2 then
    (r.1, used ++ [if m.match_selection_case then r.1.selection_letter
                   else toLowercaseFirst r.1.selection_letter])
  else
    ((get_selection e m.allowed_chars m.allowed_regex unproductive
        m.match_allowed_chars_case m.match_selection_case).1, used)

/-- One full pass of the minimize-keys loop over the entry list, threading
the `used` accumulator left to right (menu.rs `for entry in &mut
self.current_entries`). -/
def assignPass (m : Menu) (unproductive : List Char) (used : List Char) :
    List Entry → List Entry
  | [] => []
  | e :: rest =>
    let r := assignEntry m unproductive used e
    r.1 :: assignPass m unproductive r.2 rest

/-- The end-of-pass collision check of menu.rs lines 164–169: `not_same`
is `any (x.selection_letter != current_entries[0].selection_letter)`, and
the collision branch is taken when `not_same` is false. On an empty list
the `any` closure never runs, so `not_same` is false and the collision
branch is taken (where indexing `current_entries[0]` then panics). -/
def passCollides : List Entry → Bool
  | [] => true
  | e0 :: rest =>
    !((e0 :: rest).any (fun x => x.selection_letter != e0.selection_letter))

/-- Result of the minimize-keys retry loop. `panicked` models the Rust
panic of indexing `self.current_entries[0]` on an empty vector; `fuelOut`
means the unbounded Rust `loop` has not exited within `fuel` passes. -/
inductive LoopRes where
  | accepted : List Entry → List Char → LoopRes
  | panicked : LoopRes
  | fuelOut : LoopRes
deriving DecidableEq

/-- The minimize-keys retry loop of menu.rs `find_entry_selections`
(lines 127–178): run one assignment pass; if every entry ended on the
first entry's letter, push that letter onto `unproductive` and retry,
otherwise accept the pass. -/
def minimizeLoop (m : Menu) (entries : List Entry) (unproductive : List Char) :
    Nat → LoopRes
  | 0 => LoopRes.fuelOut
  | fuel + 1 =>
    let entries2 := assignPass m unproductive [] entries
    if passCollides entries2 then
      match entries2.head? with
      | none => LoopRes.panicked
      | some e0 =>
        minimizeLoop m entries2 (unproductive ++ [e0.selection_letter]) fuel
    else
      LoopRes.accepted entries2 unproductive

/-- Result of `find_entry_selections` (and of `filter`'s reassignment). -/
inductive AssignResult where
  | ok : Menu → AssignResult
  | panicked : AssignResult
  | fuelOut : AssignResult

/-- menu.rs `Menu::find_entry_selections`: the minimize-keys loop when
`minimize_keys` is set, otherwise a single `get_selection` over every
entry with an empty disallowed set. -/
def find_entry_selections (m : Menu) (fuel : Nat) : AssignResult :=
  if m.minimize_keys then
    match minimizeLoop m m.current_entries [] fuel with
    | LoopRes.accepted es _ => AssignResult.ok { m with current_entries := es }
    | LoopRes.panicked => AssignResult.panicked
    | LoopRes.fuelOut => AssignResult.fuelOut
  else
    AssignResult.ok { m with current_entries := m.current_entries.map (fun e =>
      (get_selection e m.allowed_chars m.allowed_regex []
        m.match_allowed_chars_case m.match_selection_case).1) }

/-- menu.rs `Menu::get_entries`, with the directory enumeration passed in
as a parameter: `read_dir` is an external collaborator, and an absent or
unreadable directory contributes the empty list. The static config
entries are appended and letters are assigned. -/
def get_entries (m : Menu) (dirEntries : List Entry) (fuel : Nat) : AssignResult :=
  find_entry_selections { m with current_entries := dirEntries ++ m.entries } fuel

/-- The keystroke normalization of menu.rs `filter` lines 193–197: the
incoming letter is lowercased exactly when `match_allowed_chars_case` is
false. -/
def normalizeKey (m : Menu) (in_letter : Char) : Char :=
  if !m.match_allowed_chars_case then toLowercaseFirst in_letter else in_letter

/-- The match predicate of menu.rs `filter` lines 199–219 (used both for
`has_match` and for `retain`): compare the entry's selection letter with
the normalized keystroke, lowercasing the selection letter exactly when
`match_selection_case` is false. -/
def entryMatches (match_selection_case : Bool) (letter : Char) (e : Entry) : Bool :=
  if match_selection_case then e.selection_letter == letter
  else toLowercaseFirst e.selection_letter == letter

/-- Outcome of one `filter` transition. `ignored` is the early return when
no entry matches (menu state untouched); `activated` is the single
survivor branch, carrying the dispatched payload and action; `filtered`
is the multi-survivor branch after cursors advance and letters are
reassigned. -/
inductive FilterOutcome where
  | ignored : Menu → FilterOutcome
  | activated : Menu → List Char → ActionType → FilterOutcome
  | filtered : Menu → FilterOutcome
  | panicked : FilterOutcome
  | fuelOut : FilterOutcome

/-- menu.rs `Menu::filter` (lines 192–243): normalize the keystroke; if no
entry matches, return with nothing changed; otherwise retain the matching
entries; a single survivor is activated (its action dispatched with its
`full_string`) and the session closed; with more survivors, each
survivor's `pos` becomes `selection_index + 1` and letters are
reassigned. -/
def filter (m : Menu) (in_letter : Char) (fuel : Nat) : FilterOutcome :=
  let letter := normalizeKey m in_letter
  let has_match := m.current_entries.any (entryMatches m.match_selection_case letter)
  if !has_match then
    FilterOutcome.ignored m
  else
    let retained := m.current_entries.filter (entryMatches m.match_selection_case letter)
    if retained.length = 1 then
      match retained.head? with
      | some e =>
        FilterOutcome.activated { m with current_entries := retained }
          e.full_string e.action
      | none => FilterOutcome.panicked
    else
      let bumped := retained.map (fun e => { e with pos := e.selection_index + 1 })
      match find_entry_selections { m with current_entries := bumped } fuel with
      | AssignResult.ok m2 => FilterOutcome.filtered m2
      | AssignResult.panicked => FilterOutcome.panicked
      | AssignResult.fuelOut => FilterOutcome.fuelOut

/-- The menu carried by a `filter` outcome, when the transition neither
panicked nor ran out of fuel. -/
def outcomeMenu : FilterOutcome → Option Menu
  | FilterOutcome.ignored m => some m
  | FilterOutcome.activated m _ _ => some m
  | FilterOutcome.filtered m => some m
  | FilterOutcome.panicked => none
  | FilterOutcome.fuelOut => none

/-- The selection letters of an accepted minimize-keys pass. -/
def acceptedLetters : LoopRes → Option (List Char)
  | LoopRes.accepted es _ => some (es.map (fun e => e.selection_letter))
  | _ => none

/-- The unproductive set of an accepted minimize-keys pass. -/
def acceptedUnproductive : LoopRes → Option (List Char)
  | LoopRes.accepted _ u => some u
  | _ => none

/-! ### Concrete menus and entries used by the theorems below -/

/-- A menu over the given live entries with the default global settings of
config.rs: empty `allowed_chars`, the default `[A-z0-9]` pattern, and both
case flags false. -/
def defaultMenu (ents : List Entry) (minimize : Bool) : Menu :=
  { current_entries := ents
    entries := []
    allowed_chars := []
    match_allowed_chars_case := false
    allowed_regex := some defaultAllowedRegex
    match_selection_case := false
    minimize_keys := minimize }

/-- The end-of-pass collision condition as the spec words it (spec 4.2 c):
every entry's selection letter is present (not the `char::MAX` sentinel)
and equal to the first entry's letter under the selection-case rule. Used
only to compare the spec's wording against `passCollides`. -/
def specCollisionTest (match_selection_case : Bool) : List Entry → Bool
  | [] => false
  | e0 :: rest =>
    (e0 :: rest).all (fun x =>
      x.selection_letter != charMAX &&
      (if match_selection_case then x.selection_letter == e0.selection_letter
       else toLowercaseFirst x.selection_letter == toLowercaseFirst e0.selection_letter))

/-- A fresh single entry with label `"a"`. -/
def entryA : Entry := Entry.new "a".toList "a".toList ActionType.Open

/-- `entryA` after its first successful assignment: letter `'a'` at 0. -/
def entryA1 : Entry := { entryA with selection_letter := 'a', selection_index := 0 }

/-- A minimize-keys menu holding the single entry `entryA`. -/
def mA : Menu := defaultMenu [entryA] true

/-- Fresh entry with label `"cat"` (spec Scenario B). -/
def eCat : Entry := Entry.new "cat".toList "cat".toList ActionType.Open

/-- Fresh entry with label `"car"` (spec Scenario B). -/
def eCar : Entry := Entry.new "car".toList "car".toList ActionType.Open

/-- `eCat` as the accepted first minimize pass leaves it: `'c'` at 0. -/
def eCatSel : Entry := { eCat with selection_letter := 'c', selection_index := 0 }

/-- `eCar` as the accepted first minimize pass leaves it: `'a'` at 1. -/
def eCarSel : Entry := { eCar with selection_letter := 'a', selection_index := 1 }

/-- The Scenario B menu: entries `["cat", "car"]`, minimize keys on. -/
def mB : Menu := defaultMenu [eCat, eCar] true

/-- Fresh entry with label `"C"`. -/
def eUpperC : Entry := Entry.new "C".toList "C".toList ActionType.Open

/-- Fresh entry with label `"c"`. -/
def eLowerC : Entry := Entry.new "c".toList "c".toList ActionType.Open

/-- A minimize-keys menu over the labels `["C", "c"]`. -/
def m4 : Menu := defaultMenu [eUpperC, eLowerC] true

/-- `eUpperC` after the first pass: letter `'C'` at 0. -/
def eUpperCSel : Entry := { eUpperC with selection_letter := 'C', selection_index := 0 }

/-- `eLowerC` after the first pass: letter `'c'` at 0 (its first attempt is
blocked by the used set holding `'c'`, the retry without it succeeds). -/
def eLowerCSel : Entry := { eLowerC with selection_letter := 'c', selection_index := 0 }

/-- Label `"c"`, payload `"c1"`, with its initial assignment `'c'` at 0. -/
def eSelC1 : Entry :=
  { (Entry.new "c".toList "c1".toList ActionType.Open) with
    selection_letter := 'c', selection_index := 0 }

/-- Label `"c"`, payload `"c2"`, with its initial assignment `'c'` at 0. -/
def eSelC2 : Entry :=
  { (Entry.new "c".toList "c2".toList ActionType.Open) with
    selection_letter := 'c', selection_index := 0 }

/-- Menu over two identical labels `"c"` after the initial assignment. -/
def m8a : Menu := defaultMenu [eSelC1, eSelC2] false

/-- `eSelC1` after surviving a filter on `'c'`: cursor advanced to 1, the
reassignment scan found nothing, so letter `'c'` at 0 is retained. -/
def eStaleC1 : Entry := { eSelC1 with pos := 1 }

/-- `eSelC2` after surviving a filter on `'c'`: same stale state. -/
def eStaleC2 : Entry := { eSelC2 with pos := 1 }

/-- `m8a` after one filter transition on keystroke `'c'`. -/
def m8b : Menu := defaultMenu [eStaleC1, eStaleC2] false

/-- An entry whose assigned selection letter is lowercase `'b'`. -/
def eLetterB : Entry :=
  { (Entry.new "b".toList "b".toList ActionType.Open) with
    selection_letter := 'b', selection_index := 0 }

/-- A menu with `match_allowed_chars_case = true` and
`match_selection_case = false`, holding `eLetterB`. -/
def mMixedCase : Menu :=
  { current_entries := [eLetterB]
    entries := []
    allowed_chars := []
    match_allowed_chars_case := true
    allowed_regex := none
    match_selection_case := false
    minimize_keys := false }

/-- A minimize-keys menu with no static entries. -/
def mEmptyMin : Menu := defaultMenu [] true

/-! ### Theorems -/

/-- C2 counterexample: on entries `["cat", "car"]` with minimize keys, the
resolver's accepted pass assigns `'c'` to `"cat"` and `'a'` to `"car"`
with an empty unproductive set — not `'t'` and `'r'` after two rejected
passes as the claim states. -/
theorem cat_car_letters_not_t_r :
    acceptedLetters (minimizeLoop mB mB.current_entries [] 3) = some ['c', 'a'] ∧
    acceptedUnproductive (minimizeLoop mB mB.current_entries [] 3) = some [] ∧
    (some ['c', 'a'] : Option (List Char)) ≠ some ['t', 'r'] := by
  refine ⟨rfl, rfl, by decide⟩

/-- C2 (amended): for entries `["cat", "car"]` with minimize keys on, the
very first pass is accepted, with `'c'` assigned to `"cat"` and `'a'` to
`"car"` (the within-pass used set steers `"car"` past the taken `'c'`),
and no letter ever becomes unproductive. -/
theorem cat_car_accepted_first_pass :
    ∀ fuel, minimizeLoop mB mB.current_entries [] (fuel + 1)
      = LoopRes.accepted [eCatSel, eCarSel] [] :=
  fun _ => rfl

/-- C3 counterexample: an entry with label `"c"` whose cursor has moved
past its only letter fails the scan, yet its `selection_letter` stays
`'c'` (it is not cleared), and that stale letter still matches the
keystroke `'c'` — contradicting "becomes none and the entry cannot match
any subsequent keystroke". -/
theorem stale_letter_still_matches :
    (get_selection eStaleC1 [] (some defaultAllowedRegex) [] false false).2 = false ∧
    (get_selection eStaleC1 [] (some defaultAllowedRegex) [] false false).1.selection_letter = 'c' ∧
    entryMatches false (toLowercaseFirst 'c') eStaleC1 = true := by
  refine ⟨rfl, rfl, by decide⟩

/-- C3 (amended): when the scan finds no qualifying character,
`get_selection` returns false and leaves the entry entirely unchanged —
in particular it retains the letter of an earlier assignment pass (the
`char::MAX` sentinel only if no pass ever succeeded). -/
theorem get_selection_failure_leaves_entry_unchanged
    (e : Entry) (a : List Char) (r : Option (Char → Bool)) (d : List Char)
    (b1 b2 : Bool)
    (h : (get_selection e a r d b1 b2).2 = false) :
    (get_selection e a r d b1 b2).1 = e := by
  unfold get_selection at h ⊢
  cases hs : selectionScan a r d b1 b2 ((charIndices e.string).drop e.pos) with
  | none => simp [hs]
  | some p => rw [hs] at h; cases p; simp at h

/-- Witness for C3's amended theorem at the stale `"c"` entry. -/
theorem get_selection_failure_unchanged_witness :
    (get_selection eStaleC1 [] none [] false false).1 = eStaleC1 :=
  get_selection_failure_leaves_entry_unchanged eStaleC1 [] none [] false false
    (by decide)

/-- C4 counterexample: after one pass on labels `["C", "c"]` with
`match_selection_case = false`, the letters are `'C'` and `'c'` — equal
under the selection-case rule and both present, so the claim says the
pass collides and is rejected; the code's raw-equality test says
otherwise and the pass is accepted with nothing marked unproductive. -/
theorem collision_test_case_rule_disagreement :
    minimizeLoop m4 m4.current_entries [] 2
      = LoopRes.accepted [eUpperCSel, eLowerCSel] [] ∧
    passCollides [eUpperCSel, eLowerCSel] = false ∧
    specCollisionTest false [eUpperCSel, eLowerCSel] = true := by
  refine ⟨rfl, by decide, by decide⟩

/-- C4 (amended): the end-of-pass collision test holds exactly when every
entry's `selection_letter` is raw-equal (case-sensitive `char` equality,
regardless of `match_selection_case`, and with no presence check) to the
first entry's letter. -/
theorem collision_test_iff_raw_equal (entries : List Entry) (e0 : Entry)
    (h : entries.head? = some e0) :
    passCollides entries = true ↔
      ∀ x ∈ entries, x.selection_letter = e0.selection_letter := by
  cases entries with
  | nil => simp at h
  | cons a l =>
    simp only [List.head?_cons, Option.some.injEq] at h
    subst h
    simp [passCollides, List.any_eq_true]

/-- Witness for C4's amended theorem on the `['C', 'c']` pass output. -/
theorem collision_test_iff_raw_equal_witness :
    passCollides [eUpperCSel, eLowerCSel] = true ↔
      ∀ x ∈ [eUpperCSel, eLowerCSel],
        x.selection_letter = eUpperCSel.selection_letter :=
  collision_test_iff_raw_equal [eUpperCSel, eLowerCSel] eUpperCSel rfl

/-- C5 counterexample: with `match_allowed_chars_case = true` and
`match_selection_case = false`, typing `'B'` does not match the entry
whose letter is `'b'` — the keystroke is not lowercased, so the filter
transition is the ignored-key no-op, contrary to the claim that matching
is decided solely by `match_selection_case`. -/
theorem keystroke_case_flag_counterexample :
    filter mMixedCase 'B' 1 = FilterOutcome.ignored mMixedCase ∧
    List.any mMixedCase.current_entries
      (entryMatches mMixedCase.match_selection_case (normalizeKey mMixedCase 'B'))
      = false ∧
    mMixedCase.match_allowed_chars_case = true ∧
    mMixedCase.match_selection_case = false ∧
    eLetterB.selection_letter = 'b' := by
  refine ⟨rfl, by decide, rfl, rfl, rfl⟩

/-- C5 (amended): whether an entry in `Open` matches keystroke `k` depends
on both case flags: `k` is lowercased exactly when
`match_allowed_chars_case` is false, the entry's letter is lowercased
exactly when `match_selection_case` is false, and the entry matches iff
the two normalized characters are equal. -/
theorem filter_match_uses_both_case_flags (m : Menu) (k : Char) (e : Entry) :
    entryMatches m.match_selection_case (normalizeKey m k) e =
      ((if m.match_selection_case then e.selection_letter
        else toLowercaseFirst e.selection_letter) ==
       (if m.match_allowed_chars_case then k else toLowercaseFirst k)) := by
  cases hm : m.match_allowed_chars_case <;> cases hs : m.match_selection_case <;>
    simp [entryMatches, normalizeKey, hm, hs]

/-- C6: a keystroke matching no current entry's letter is a no-op: the
filter transition returns the very same menu — same entry list, same
selection letters, same cursors — and stays in the open (non-activated)
state; this is the explicit ignored-key outcome, not an error. -/
theorem filter_no_match_is_noop (m : Menu) (k : Char) (fuel : Nat)
    (h : List.any m.current_entries
      (entryMatches m.match_selection_case (normalizeKey m k)) = false) :
    filter m k fuel = FilterOutcome.ignored m := by
  simp [filter, h]

/-- Witness for C6: pressing `'z'` over an entry lettered `'b'`. -/
theorem filter_no_match_is_noop_witness :
    filter mMixedCase 'z' 1 = FilterOutcome.ignored mMixedCase :=
  filter_no_match_is_noop mMixedCase 'z' 1 (by decide)

/-- C9 counterexample: with `match_allowed_case = false`, the label
character `'a'` does not pass the allowed-chars check `"A"` (the list is
not case-folded, only the label character is), although some character of
`allowed_chars` is case-insensitively equal to `'a'` — so the claimed
two-sided folding is wrong. -/
theorem allowed_chars_fold_counterexample :
    (get_selection (Entry.new "a".toList "a".toList ActionType.Open)
      ['A'] none [] false false).2 = false ∧
    List.any ['A'] (fun a0 => toLowercaseFirst a0 == toLowercaseFirst 'a') = true := by
  refine ⟨rfl, by decide⟩

/-- C9 (amended): with a non-empty `allowed_chars` and
`match_allowed_case = false`, a (non-space) label character `c` passes
the allowed-chars check iff `allowed_chars` literally contains the
lowercased `c`: the fold is one-sided, so `'A'` passes against `"a"` but
`'a'` fails against `"A"`. -/
theorem allowed_chars_one_sided_fold (c : Char) (allowed : List Char)
    (h1 : allowed.isEmpty = false) (h2 : ¬(c = ' ')) :
    (get_selection (Entry.new [c] [c] ActionType.Open)
      allowed none [] false false).2
      = allowed.contains (toLowercaseFirst c) := by
  by_cases hc : toLowercaseFirst c ∈ allowed <;>
    simp [get_selection, selectionScan, charIndices, charIndicesFrom,
      Entry.new, h1, h2, hc]

/-- Witness for C9's amended theorem: `'A'` against allowed list `"a"`. -/
theorem allowed_chars_one_sided_fold_witness :
    (get_selection (Entry.new ['A'] ['A'] ActionType.Open)
      ['a'] none [] false false).2
      = List.contains ['a'] (toLowercaseFirst 'A') :=
  allowed_chars_one_sided_fold 'A' ['a'] (by decide) (by decide)

/-- C10: with minimize keys on and no static entries, letter assignment
over an empty directory listing reaches the end-of-pass collision branch
(the `any` over no entries is vacuously false) and panics indexing
`current_entries[0]`, instead of returning with an empty assignment. -/
theorem minimize_empty_entry_set_panics (m : Menu) (fuel : Nat)
    (hmin : m.minimize_keys = true) (hent : m.entries = []) :
    get_entries m [] (fuel + 1) = AssignResult.panicked := by
  simp [get_entries, find_entry_selections, hmin, hent, minimizeLoop,
    assignPass, passCollides]

/-- Witness for C10 at a concrete minimize-keys menu with no entries. -/
theorem minimize_empty_entry_set_panics_witness :
    get_entries mEmptyMin [] 1 = AssignResult.panicked :=
  minimize_empty_entry_set_panics mEmptyMin 0 rfl rfl

/-- Once `'a'` is disallowed, the scan over the single-character label
`"a"` finds nothing. -/
lemma scan_single_a_fails (dis : List Char) (h : 'a' ∈ dis) :
    selectionScan [] (some defaultAllowedRegex) dis false false [(0, 'a')] = none := by
  have ha : toLowercaseFirst 'a' = 'a' := rfl
  have hr : defaultAllowedRegex 'a' = true := rfl
  simp [selectionScan, ha, hr, List.contains, h]

/-- Once `'a'` is disallowed, `get_selection` fails on the stuck entry and
leaves it unchanged. -/
lemma get_selection_single_a_fails (dis : List Char) (h : 'a' ∈ dis) :
    get_selection entryA1 [] (some defaultAllowedRegex) dis false false
      = (entryA1, false) := by
  have hstr : (charIndices entryA1.string).drop entryA1.pos = [(0, 'a')] := rfl
  simp [get_selection, hstr, scan_single_a_fails dis h]

/-- Once `'a'` is in the unproductive set, every further pass of the
minimize-keys loop over the single entry re-adds `'a'` and recurses: the
loop consumes all fuel without exiting. -/
lemma minimizeLoop_single_a_stuck :
    ∀ fuel (u : List Char), 'a' ∈ u →
      minimizeLoop mA [entryA1] u fuel = LoopRes.fuelOut := by
  intro fuel
  induction fuel with
  | zero => intro u _; rfl
  | succ n ih =>
    intro u h
    have h1 : 'a' ∈ u ++ ([] : List Char) := by simpa using h
    have hpass : assignPass mA u [] [entryA1] = [entryA1] := by
      simp [assignPass, assignEntry, mA, defaultMenu,
        get_selection_single_a_fails _ h1, get_selection_single_a_fails _ h]
    have hcol : passCollides [entryA1] = true := rfl
    simp only [minimizeLoop, hpass, hcol, if_true, List.head?_cons]
    exact ih (u ++ [entryA1.selection_letter]) (by simp [entryA1])

/-- C1: the claim fails — with a single entry (label `"a"`) and minimize
keys on, `find_entry_selections` never terminates: the end-of-pass
collision check compares every entry against the first and is vacuously
satisfied by a singleton, so every pass re-adds a letter to the
unproductive set and retries, for any amount of fuel. -/
theorem minimize_keys_single_entry_never_terminates :
    ∀ fuel, find_entry_selections mA fuel = AssignResult.fuelOut := by
  intro fuel
  cases fuel with
  | zero => rfl
  | succ n =>
    show (match minimizeLoop mA [entryA1] ['a'] n with
      | LoopRes.accepted es _ => AssignResult.ok { mA with current_entries := es }
      | LoopRes.panicked => AssignResult.panicked
      | LoopRes.fuelOut => AssignResult.fuelOut) = AssignResult.fuelOut
    rw [minimizeLoop_single_a_stuck n ['a'] (by simp)]

/-- `get_selection` never touches the scan cursor. -/
lemma get_selection_pos (e : Entry) (a : List Char) (r : Option (Char → Bool))
    (d : List Char) (b1 b2 : Bool) :
    ((get_selection e a r d b1 b2).1).pos = e.pos := by
  unfold get_selection
  cases selectionScan a r d b1 b2 ((charIndices e.string).drop e.pos) with
  | none => rfl
  | some p => cases p; rfl

/-- The minimize-pass body never touches the scan cursor. -/
lemma assignEntry_pos (m : Menu) (u used : List Char) (e : Entry) :
    ((assignEntry m u used e).1).pos = e.pos := by
  simp only [assignEntry]
  split
  · exact get_selection_pos ..
  · exact get_selection_pos ..

/-- A whole minimize pass preserves the cursor of every entry. -/
lemma assignPass_map_pos (m : Menu) (u : List Char) :
    ∀ (l : List Entry) (used : List Char),
      (assignPass m u used l).map (fun e => e.pos) = l.map (fun e => e.pos) := by
  intro l
  induction l with
  | nil => intro used; rfl
  | cons e rest ih =>
    intro used
    simp [assignPass, assignEntry_pos, ih]

/-- An accepted minimize-keys loop preserves the cursor of every entry. -/
lemma minimizeLoop_accepted_map_pos (m : Menu) :
    ∀ (fuel : Nat) (entries : List Entry) (u : List Char) (es : List Entry)
      (u2 : List Char),
      minimizeLoop m entries u fuel = LoopRes.accepted es u2 →
      es.map (fun e => e.pos) = entries.map (fun e => e.pos) := by
  intro fuel
  induction fuel with
  | zero =>
    intro entries u es u2 h
    exact absurd h (by simp [minimizeLoop])
  | succ n ih =>
    intro entries u es u2 h
    simp only [minimizeLoop] at h
    cases hc : passCollides (assignPass m u [] entries) with
    | true =>
      rw [hc] at h
      simp only [if_true] at h
      cases hh : (assignPass m u [] entries).head? with
      | none => rw [hh] at h; cases h
      | some e0 =>
        rw [hh] at h
        exact (ih _ _ _ _ h).trans (assignPass_map_pos m u entries [])
    | false =>
      rw [hc] at h
      simp only [Bool.false_eq_true, if_false] at h
      cases h
      exact assignPass_map_pos m u entries []

/-- A successful `find_entry_selections` preserves the cursor of every
entry (cursors only move in `filter`, never during assignment). -/
lemma find_ok_map_pos (m : Menu) (fuel : Nat) (m2 : Menu)
    (h : find_entry_selections m fuel = AssignResult.ok m2) :
    m2.current_entries.map (fun e => e.pos)
      = m.current_entries.map (fun e => e.pos) := by
  unfold find_entry_selections at h
  by_cases hm : m.minimize_keys = true
  · rw [if_pos hm] at h
    cases hl : minimizeLoop m m.current_entries [] fuel with
    | accepted es u2 =>
      rw [hl] at h
      cases h
      simpa using minimizeLoop_accepted_map_pos m fuel m.current_entries [] es u2 hl
    | panicked => rw [hl] at h; cases h
    | fuelOut => rw [hl] at h; cases h
  · rw [if_neg hm] at h
    cases h
    simp [List.map_map, Function.comp, get_selection_pos]

/-- A successful `find_entry_selections` preserves the number of entries. -/
lemma find_ok_length (m : Menu) (fuel : Nat) (m2 : Menu)
    (h : find_entry_selections m fuel = AssignResult.ok m2) :
    m2.current_entries.length = m.current_entries.length := by
  have h2 := congrArg List.length (find_ok_map_pos m fuel m2 h)
  simpa using h2

/-- C7: starting from a non-empty entry set in the open state, no filter
transition ever yields zero entries: an ignored key leaves the set as is,
activation keeps the single survivor, and the multi-survivor branch only
runs after at least one match was found, so the retained set is non-empty
and reassignment preserves its size. -/
theorem filter_never_empties (m : Menu) (k : Char) (fuel : Nat) (m2 : Menu)
    (h0 : m.current_entries ≠ [])
    (h : outcomeMenu (filter m k fuel) = some m2) :
    m2.current_entries ≠ [] := by
  simp only [filter] at h
  cases hm : m.current_entries.any
      (entryMatches m.match_selection_case (normalizeKey m k)) with
  | false =>
    rw [hm] at h
    simp only [Bool.not_false, if_true, outcomeMenu, Option.some.injEq] at h
    cases h
    exact h0
  | true =>
    rw [hm] at h
    simp only [Bool.not_true, Bool.false_eq_true, if_false] at h
    obtain ⟨x, hx, hpx⟩ := List.any_eq_true.mp hm
    have hret : x ∈ m.current_entries.filter
        (entryMatches m.match_selection_case (normalizeKey m k)) :=
      List.mem_filter.mpr ⟨hx, hpx⟩
    have hretne : m.current_entries.filter
        (entryMatches m.match_selection_case (normalizeKey m k)) ≠ [] :=
      List.ne_nil_of_mem hret
    by_cases hlen : (m.current_entries.filter
        (entryMatches m.match_selection_case (normalizeKey m k))).length = 1
    · rw [if_pos hlen] at h
      cases hh : (m.current_entries.filter
          (entryMatches m.match_selection_case (normalizeKey m k))).head? with
      | none => exact absurd (List.head?_eq_none_iff.mp hh) hretne
      | some e =>
        rw [hh] at h
        simp only [outcomeMenu, Option.some.injEq] at h
        cases h
        exact hretne
    · rw [if_neg hlen] at h
      split at h
      · rename_i m3 hf
        simp only [outcomeMenu, Option.some.injEq] at h
        cases h
        have hl3 := find_ok_length _ fuel _ hf
        simp only [List.length_map] at hl3
        intro hnil
        rw [hnil] at hl3
        exact hretne (List.eq_nil_of_length_eq_zero hl3.symm)
      · simp [outcomeMenu] at h
      · simp [outcomeMenu] at h

/-- Witness for C7: the two-survivor filter on `m8a` keeps both entries. -/
theorem filter_never_empties_witness : m8b.current_entries ≠ [] :=
  filter_never_empties m8a 'c' 2 m8b (by decide) rfl

/-- Equal images under `map` yield a pointwise relation. -/
lemma map_eq_forall2 {f g : Entry → Nat} :
    ∀ {l1 l2 : List Entry}, l1.map f = l2.map g →
      List.Forall₂ (fun a b => f a = g b) l1 l2 := by
  intro l1
  induction l1 with
  | nil =>
    intro l2 h
    cases l2 with
    | nil => exact List.Forall₂.nil
    | cons b t => simp at h
  | cons a t ih =>
    intro l2 h
    cases l2 with
    | nil => simp at h
    | cons b t2 =>
      simp only [List.map_cons, List.cons.injEq] at h
      exact List.Forall₂.cons h.1 (ih h.2)

/-- Strengthen a pointwise relation with a property of the left list. -/
lemma forall2_strengthen {R S : Entry → Entry → Prop} {P : Entry → Prop} :
    ∀ {l1 l2 : List Entry}, List.Forall₂ R l1 l2 → (∀ a ∈ l1, P a) →
      (∀ a b, R a b → P a → S a b) → List.Forall₂ S l1 l2 := by
  intro l1 l2 h
  induction h with
  | nil => intro _ _; exact List.Forall₂.nil
  | cons hr _ ih =>
    intro hp himp
    exact List.Forall₂.cons (himp _ _ hr (hp _ (by simp)))
      (ih (fun a ha => hp a (by simp [ha])) himp)

/-- C8 (amended): in a non-activating filter transition, each survivor's
new cursor is exactly its `selection_index + 1`; under the maintained
invariant `pos ≤ selection_index + 1` the cursor never decreases, and it
strictly increases exactly when the survivor's current selection came
from a scan at or after the old cursor (`pos ≤ selection_index`) — which
fails when the letter is stale from an earlier pass, so the claimed
unconditional strict increase does not hold. -/
theorem filter_advances_cursors (m : Menu) (k : Char) (fuel : Nat) (m2 : Menu)
    (hinv : ∀ e ∈ m.current_entries, e.pos ≤ e.selection_index + 1)
    (h : filter m k fuel = FilterOutcome.filtered m2) :
    List.Forall₂ (fun old new =>
        new.pos = old.selection_index + 1 ∧ old.pos ≤ new.pos ∧
        (old.pos ≤ old.selection_index → old.pos < new.pos))
      (m.current_entries.filter
        (entryMatches m.match_selection_case (normalizeKey m k)))
      m2.current_entries := by
  simp only [filter] at h
  cases hm : m.current_entries.any
      (entryMatches m.match_selection_case (normalizeKey m k)) with
  | false =>
    rw [hm] at h
    simp only [Bool.not_false, if_true] at h
    cases h
  | true =>
    rw [hm] at h
    simp only [Bool.not_true, Bool.false_eq_true, if_false] at h
    by_cases hlen : (m.current_entries.filter
        (entryMatches m.match_selection_case (normalizeKey m k))).length = 1
    · rw [if_pos hlen] at h
      split at h
      · cases h
      · cases h
    · rw [if_neg hlen] at h
      split at h
      case _ m3 hf =>
        cases h
        have hmap := find_ok_map_pos _ fuel _ hf
        rw [List.map_map] at hmap
        have hmap2 : (m.current_entries.filter
              (entryMatches m.match_selection_case (normalizeKey m k))).map
              (fun e => e.selection_index + 1)
            = m2.current_entries.map (fun e => e.pos) := hmap.symm
        have hP : ∀ a ∈ m.current_entries.filter
            (entryMatches m.match_selection_case (normalizeKey m k)),
            a.pos ≤ a.selection_index + 1 :=
          fun a ha => hinv a (List.mem_of_mem_filter ha)
        refine forall2_strengthen (map_eq_forall2 hmap2) hP ?_
        intro a b hr hp
        refine ⟨hr.symm, ?_, ?_⟩
        · omega
        · intro hle; omega
      case _ hf => cases h
      case _ hf => cases h

/-- Witness for C8's amended theorem: the two stale `"c"` entries keep
their cursors at 1 (non-strict) across a filter on `'c'`. -/
theorem filter_advances_cursors_witness :
    List.Forall₂ (fun old new =>
        new.pos = old.selection_index + 1 ∧ old.pos ≤ new.pos ∧
        (old.pos ≤ old.selection_index → old.pos < new.pos))
      (m8b.current_entries.filter
        (entryMatches m8b.match_selection_case (normalizeKey m8b 'c')))
      m8b.current_entries :=
  filter_advances_cursors m8b 'c' 2 m8b (by decide) rfl

/-- C8 counterexample: `m8b` (two entries labelled `"c"` with stale letter
`'c'` at index 0 and cursor 1, reached from `m8a` by one filter on `'c'`)
is a fixpoint of a further non-activating filter on `'c'`: every
survivor's cursor stays at 1 instead of strictly increasing. -/
theorem cursor_not_strictly_increasing :
    filter m8a 'c' 2 = FilterOutcome.filtered m8b ∧
    filter m8b 'c' 2 = FilterOutcome.filtered m8b ∧
    m8b.current_entries.map (fun e => e.pos) = [1, 1] := by
  refine ⟨rfl, rfl, by decide⟩
